import Mathlib

/-!
Verification of the chunk-neighborhood / meshing core of a voxel engine.

Shallow embedding conventions:
* `Entity` is `Nat` (opaque stable identity).
* `IVec3` is a structure of three `Int`s, mirroring `bevy::math::IVec3`
  (no overflow modelling: all values used stay far below 2^31).
* A `Vec<Block>` block volume is modelled by its indexing function
  `Nat → Block` (the source only ever reads it through
  `SpatiallyMapped::at_pos`, i.e. `&self[pos_to_index_3d(pos)]`).
* Rust `HashMap` resources are modelled as functions into `Option`.
* Functions that can panic return `Option` instead.
-/

namespace VoxelCore

/-- Entity identity, `bevy::ecs::entity::Entity`. -/
abbrev Entity := Nat

/-- `bevy::math::IVec3`. -/
structure IVec3 where
  x : Int
  y : Int
  z : Int
  deriving DecidableEq, Repr

instance : Add IVec3 := ⟨fun a b => ⟨a.x + b.x, a.y + b.y, a.z + b.z⟩⟩

instance : Neg IVec3 := ⟨fun a => ⟨-a.x, -a.y, -a.z⟩⟩

/-- `src/block.rs`: `enum Block { Air, Stone, Dirt }` with `Air` as default. -/
inductive Block where
  | Air
  | Stone
  | Dirt
  deriving DecidableEq, Repr

instance : Inhabited Block := ⟨Block.Air⟩

/-- `Block::is_transparent`. -/
def Block.is_transparent : Block → Bool
  | Block.Air => true
  | _ => false

/-- `src/normal.rs`: `enum Normal`. -/
inductive Normal where
  | PosX
  | NegX
  | PosY
  | NegY
  | PosZ
  | NegZ
  deriving DecidableEq, Repr

/-- `Normal::as_unit_direction`. -/
def Normal.as_unit_direction : Normal → IVec3
  | Normal.PosX => ⟨1, 0, 0⟩
  | Normal.NegX => ⟨-1, 0, 0⟩
  | Normal.PosY => ⟨0, 1, 0⟩
  | Normal.NegY => ⟨0, -1, 0⟩
  | Normal.PosZ => ⟨0, 0, 1⟩
  | Normal.NegZ => ⟨0, 0, -1⟩

/-- `lib_spatial`: `CHUNK_SIZE = 32`. -/
def CHUNK_SIZE : Nat := 32

/-- `lib_spatial::pos_to_index_3d`. -/
def pos_to_index_3d (x y z : Nat) : Nat :=
  x + y * CHUNK_SIZE + z * CHUNK_SIZE * CHUNK_SIZE

/-- A `Vec<Block>` block volume (`world_gen::Blocks`), modelled by its
indexing function: `b i` is the element `vec[i]`. -/
def Blocks := Nat → Block

/-- `SpatiallyMapped<3> for Vec<T>`: `at_pos(pos) = self[pos_to_index_3d(pos)]`,
specialised to `Blocks`. -/
def Blocks.at_pos (b : Blocks) (x y z : Nat) : Block :=
  b (pos_to_index_3d x y z)

/-- `lib_chunk::Neighborhood<T>`: `chunks: [Option<Arc<T>>; 27]`, modelled as
the indexing function of the 27-element array (only indices 0..26 are ever
used). -/
structure Neighborhood (σ : Type) where
  chunks : Nat → Option σ

/-- The array index `(x+1) + 3*(y+1) + 9*(z+1)` used by
`Neighborhood::get_chunk` / `put_chunk` for `pos ∈ {-1,0,1}^3`. -/
def neighborIndex (pos : IVec3) : Nat :=
  ((pos.x + 1) + 3 * (pos.y + 1) + 9 * (pos.z + 1)).toNat

/-- `Neighborhood::get_chunk` (caller contract: `pos ∈ {-1,0,1}^3`). -/
def Neighborhood.get_chunk {σ : Type} (n : Neighborhood σ) (pos : IVec3) :
    Option σ :=
  n.chunks (neighborIndex pos)

/-- `Neighborhood::put_chunk`. -/
def Neighborhood.put_chunk {σ : Type} (n : Neighborhood σ) (pos : IVec3)
    (value : Option σ) : Neighborhood σ :=
  ⟨fun i => if i = neighborIndex pos then value else n.chunks i⟩

/-- `Neighborhood::get_middle`: reads the slot at `[1, 1, 1]` and panics when
it is `None`; the panic is modelled by returning `none`. -/
def Neighborhood.get_middle {σ : Type} (n : Neighborhood σ) : Option σ :=
  n.get_chunk ⟨1, 1, 1⟩

/-- The helper `get_neighborhood_axis_coord` inside `Neighborhood::at_pos`:
maps a (possibly out-of-bounds) chunk-local axis coordinate to 0, 1 or 2. -/
def get_neighborhood_axis_coord (axis_coord : Int) : Nat :=
  if axis_coord < 0 then 0
  else if axis_coord < (CHUNK_SIZE : Int) then 1
  else 2

/-- The chunk-local wrap `((x + SIZE) % SIZE) as usize` inside
`Neighborhood::at_pos` (Rust `%` is truncating remainder, hence `tmod`). -/
def local_wrap (x : Int) : Nat :=
  ((x + (CHUNK_SIZE : Int)).tmod (CHUNK_SIZE : Int)).toNat

/-- `Neighborhood::<Blocks>::at_pos`, from `lib_chunk` (the `SpatiallyMapped`
instantiation used by the mesher). -/
def Neighborhood.at_pos (n : Neighborhood Blocks) (pos : IVec3) :
    Option Block :=
  let xn := get_neighborhood_axis_coord pos.x
  let yn := get_neighborhood_axis_coord pos.y
  let zn := get_neighborhood_axis_coord pos.z
  let xl := local_wrap pos.x
  let yl := local_wrap pos.y
  let zl := local_wrap pos.z
  (n.chunks (xn + 3 * yn + 9 * zn)).map (fun c => c.at_pos xl yl zl)

/-- `lib_chunk::FullNeighborhood<T>`: `chunks: [Arc<T>; 27]`. -/
structure FullNeighborhood (σ : Type) where
  chunks : Nat → σ

/-- `FullNeighborhood::get_chunk`. -/
def FullNeighborhood.get_chunk {σ : Type} (n : FullNeighborhood σ)
    (pos : IVec3) : σ :=
  n.chunks (neighborIndex pos)

/-- `FullNeighborhood::get_middle`: `self.get_chunk(&[1, 1, 1])`. -/
def FullNeighborhood.get_middle {σ : Type} (n : FullNeighborhood σ) : σ :=
  n.get_chunk ⟨1, 1, 1⟩

/-! ## Meshing algorithm (`src/mesh.rs`) -/

/-- `mesh::Quad` (width and height are the constant `1` in the source and
are omitted; `ambient_occlusion: [u8; 4]` becomes a function on `Nat`). -/
structure Quad where
  block : Block
  normal : Normal
  pos : IVec3
  ambient_occlusion : Nat → Nat

/-- `mesh::get_perpendicular_axes`. -/
def get_perpendicular_axes : Normal → Normal × Normal
  | Normal.PosX => (Normal.NegZ, Normal.NegY)
  | Normal.PosY => (Normal.NegZ, Normal.PosX)
  | Normal.PosZ => (Normal.PosX, Normal.NegY)
  | Normal.NegX => (Normal.PosZ, Normal.NegY)
  | Normal.NegY => (Normal.NegZ, Normal.NegX)
  | Normal.NegZ => (Normal.NegX, Normal.NegY)

/-- Scalar-vector product used as `axis.as_unit_direction() * c`. -/
def IVec3.smul (v : IVec3) (c : Int) : IVec3 :=
  ⟨v.x * c, v.y * c, v.z * c⟩

/-- The closure `is_solid` in `get_ambient_occlusion_factor`:
`at_pos(p).map(|b| !b.is_transparent()).unwrap_or(false)`. -/
def is_solid (blocks : Neighborhood Blocks) (p : IVec3) : Bool :=
  ((blocks.at_pos p).map (fun b => !b.is_transparent)).getD false

/-- `mesh::get_ambient_occlusion_factor`. -/
def get_ambient_occlusion_factor (blocks : Neighborhood Blocks) (pos : IVec3)
    (normal : Normal) (corner_index : Nat) : Nat :=
  let axes := get_perpendicular_axes normal
  let one_layer_up := normal.as_unit_direction + pos
  let offset_0 := axes.1.as_unit_direction.smul
    (match corner_index with
      | 0 => -1
      | 1 => -1
      | _ => 1)
  let offset_1 := axes.2.as_unit_direction.smul
    (match corner_index with
      | 0 => -1
      | 2 => -1
      | _ => 1)
  let left := is_solid blocks (one_layer_up + offset_0)
  let right := is_solid blocks (one_layer_up + offset_1)
  let corner := is_solid blocks (one_layer_up + offset_0 + offset_1)
  if left && right then 4
  else if left || right then
    if corner then 3 else 2
  else if corner then 1
  else 0

/-- `mesh::get_quad_on_face`. -/
def get_quad_on_face (blocks : Neighborhood Blocks) (pos : IVec3)
    (normal : Normal) : Option Quad :=
  match (blocks.at_pos pos).filter (fun b => b ≠ Block.Air) with
  | none => none
  | some block =>
    let other_pos := pos + normal.as_unit_direction
    let other_block := (blocks.at_pos other_pos).getD default
    if !other_block.is_transparent then none
    else some
      { block := block
        normal := normal
        pos := pos
        ambient_occlusion := fun idx =>
          get_ambient_occlusion_factor blocks pos normal idx }

/-- The six normals iterated by `get_quads_around_block`, in source order. -/
def allNormals : List Normal :=
  [Normal.PosX, Normal.NegX, Normal.PosY, Normal.NegY, Normal.PosZ,
   Normal.NegZ]

/-- `mesh::get_quads_around_block`. -/
def get_quads_around_block (blocks : Neighborhood Blocks) (pos : IVec3) :
    List Quad :=
  allNormals.filterMap (fun normal => get_quad_on_face blocks pos normal)

/-- `lib_utils::cube_iter(0..32)` as a list (itertools cartesian product:
first component varies slowest). -/
def cube_iter_32 : List IVec3 :=
  (List.range 32).flatMap (fun x : Nat =>
    (List.range 32).flatMap (fun y : Nat =>
      (List.range 32).map (fun z : Nat =>
        ⟨(x : Int), (y : Int), (z : Int)⟩)))

/-- `mesh::get_quads_naive`. -/
def get_quads_naive (blocks : Neighborhood Blocks) : List Quad :=
  cube_iter_32.flatMap (fun pos => get_quads_around_block blocks pos)

end VoxelCore

namespace VoxelCore

/-! ## Full-neighborhood maintenance (`lib_chunk`) -/

/-- `assign_full_neighborhood` (effect on one entity whose `Neighborhood`
changed): skip when any slot is `None`, otherwise publish a
`FullNeighborhood` with `chunks.clone().map(Option::unwrap)` (the `unwrap`
is modelled by `getD default`; it is guarded by the all-`Some` check). -/
def assign_full_neighborhood {σ : Type} [Inhabited σ] (n : Neighborhood σ)
    (full : Option (FullNeighborhood σ)) : Option (FullNeighborhood σ) :=
  if (List.range 27).any (fun i => (n.chunks i).isNone) then full
  else some ⟨fun i => (n.chunks i).getD default⟩

/-- `revoke_full_neighborhood` (effect on one entity whose `Neighborhood`
changed): only runs when a `FullNeighborhood` is present; removes it unless
all slots are `Some`. -/
def revoke_full_neighborhood {σ : Type} (n : Neighborhood σ)
    (full : Option (FullNeighborhood σ)) : Option (FullNeighborhood σ) :=
  match full with
  | none => none
  | some f => if (List.range 27).all (fun i => (n.chunks i).isSome) then some f
              else none

/-- One `Update` pass over an entity with a changed `Neighborhood`: both
maintenance systems run (their effects commute; assign-then-revoke order). -/
def full_neighborhood_step {σ : Type} [Inhabited σ] (n : Neighborhood σ)
    (full : Option (FullNeighborhood σ)) : Option (FullNeighborhood σ) :=
  revoke_full_neighborhood n (assign_full_neighborhood n full)

/-- Number of populated slots out of the 27. -/
def popCount {σ : Type} (n : Neighborhood σ) : Nat :=
  (List.range 27).countP (fun i => (n.chunks i).isSome)

/-! ## Spec-side definitions for the boundary-resolution claim (C5). -/

/-- Follows the spec's words: the neighbor slot selected per axis —
"coordinate < 0 selects offset -1, coordinate >= edge length selects
offset +1" (otherwise the subject chunk, offset 0). -/
def spec_axis_offset (v : Int) : Int :=
  if v < 0 then -1 else if 32 ≤ v then 1 else 0

/-- Follows the spec's words: the per-axis neighbor offset vector. -/
def spec_neighbor_offset (q : IVec3) : IVec3 :=
  ⟨spec_axis_offset q.x, spec_axis_offset q.y, spec_axis_offset q.z⟩

/-- Follows the spec's words: "the local coordinate wrapped modulo the chunk
edge length (32)" (mathematical modulus, i.e. `Int.emod`, which is
non-negative for a positive modulus). -/
def spec_local_coord (v : Int) : Nat :=
  (v % 32).toNat

/-- Follows the spec's words: resolve an adjacent coordinate against the
neighbor slot selected per axis, at the wrapped local coordinate; an absent
slot yields the default empty block kind. -/
def spec_resolve (nb : Neighborhood Blocks) (q : IVec3) : Block :=
  match nb.get_chunk (spec_neighbor_offset q) with
  | none => Block.Air
  | some c => c.at_pos (spec_local_coord q.x) (spec_local_coord q.y)
      (spec_local_coord q.z)

/-! ## Spec-side definition for the ambient-occlusion table (C6). -/

/-- Follows the spec's words: "both sides solid gives 4 regardless of the
diagonal; exactly one side solid gives 3 if the diagonal is solid else 2;
neither side solid gives 1 if the diagonal is solid else 0." -/
def spec_ao_table (left right diagonal : Bool) : Nat :=
  if left && right then 4
  else if left || right then (if diagonal then 3 else 2)
  else if diagonal then 1 else 0

/-- The first side sample position of a quad corner, one layer beyond the
face (as computed by `get_ambient_occlusion_factor`). -/
def side_sample_0 (pos : IVec3) (normal : Normal) (corner_index : Nat) :
    IVec3 :=
  normal.as_unit_direction + pos +
    (get_perpendicular_axes normal).1.as_unit_direction.smul
      (match corner_index with
        | 0 => -1
        | 1 => -1
        | _ => 1)

/-- The second side sample position of a quad corner. -/
def side_sample_1 (pos : IVec3) (normal : Normal) (corner_index : Nat) :
    IVec3 :=
  normal.as_unit_direction + pos +
    (get_perpendicular_axes normal).2.as_unit_direction.smul
      (match corner_index with
        | 0 => -1
        | 2 => -1
        | _ => 1)

/-- The diagonal sample position of a quad corner. -/
def diagonal_sample (pos : IVec3) (normal : Normal) (corner_index : Nat) :
    IVec3 :=
  side_sample_0 pos normal corner_index +
    ((get_perpendicular_axes normal).2.as_unit_direction.smul
      (match corner_index with
        | 0 => -1
        | 2 => -1
        | _ => 1))

end VoxelCore

namespace VoxelCore

/-! ## Remaining definitions -/

/-- Pointwise update of a function-modelled map (`HashMap::insert` /
`HashMap::remove` with an `Option` codomain). -/
def updf {α β : Type} [DecidableEq α] (f : α → β) (a : α) (b : β) : α → β :=
  fun x => if x = a then b else f x

/-! ### Spatial chunk index (`lib_chunk::ChunkIndex`) -/

/-- `ChunkIndex`: both `HashMap`s modelled as functions into `Option`. -/
structure ChunkIndex where
  entity_by_position : IVec3 → Option Entity
  position_by_entity : Entity → Option IVec3

/-- The empty index (`ChunkIndex::default`). -/
def ChunkIndex.empty : ChunkIndex :=
  ⟨fun _ => none, fun _ => none⟩

/-- `ChunkIndex::get_entity`. -/
def ChunkIndex.get_entity (idx : ChunkIndex) (pos : IVec3) : Option Entity :=
  idx.entity_by_position pos

/-- `ChunkIndex::get_position`. -/
def ChunkIndex.get_position (idx : ChunkIndex) (e : Entity) : Option IVec3 :=
  idx.position_by_entity e

/-- `add_to_index`, observing `OnAdd, ChunkPosition`: `pos` is the value of
the freshly attached `ChunkPosition` component of entity `e`. -/
def add_to_index (idx : ChunkIndex) (e : Entity) (pos : IVec3) : ChunkIndex :=
  ⟨updf idx.entity_by_position pos (some e),
   updf idx.position_by_entity e (some pos)⟩

/-- `remove_from_index`, observing `OnRemove, ChunkPosition`: `pos` is the
value of the `ChunkPosition` component of `e`, still readable at that
instant. -/
def remove_from_index (idx : ChunkIndex) (e : Entity) (pos : IVec3) :
    ChunkIndex :=
  ⟨updf idx.entity_by_position pos none,
   updf idx.position_by_entity e none⟩

/-- Index states reachable by sequences of register/unregister events that
respect the chunk lifecycle: a chunk registers exactly once (fresh entity,
fresh coordinate — the spec's "exactly one chunk entity per coordinate"),
and an unregister event carries the entity's attached position, which is the
position it registered (`ChunkPosition` is never mutated in place). -/
inductive IndexReachable : ChunkIndex → Prop where
  | empty : IndexReachable ChunkIndex.empty
  | register {idx : ChunkIndex} {e : Entity} {pos : IVec3} :
      IndexReachable idx →
      idx.entity_by_position pos = none →
      idx.position_by_entity e = none →
      IndexReachable (add_to_index idx e pos)
  | unregister {idx : ChunkIndex} {e : Entity} {pos : IVec3} :
      IndexReachable idx →
      idx.position_by_entity e = some pos →
      IndexReachable (remove_from_index idx e pos)

/-! ### Neighbor-cache propagation (`lib_chunk`) -/

/-- `lib_utils::cube_iter(-1..=1)` as a list (first component varies
slowest, as with `itertools`' cartesian product). -/
def cube_iter_offsets : List IVec3 :=
  ((List.range 3).map (fun a : Nat => (a : Int) - 1)).flatMap (fun x : Int =>
    ((List.range 3).map (fun a : Nat => (a : Int) - 1)).flatMap (fun y : Int =>
      ((List.range 3).map (fun a : Nat => (a : Int) - 1)).map (fun z : Int =>
        ⟨x, y, z⟩)))

/-- Per-entity `Neighborhood<T>` components of the world. -/
def NeighborhoodMap (σ : Type) := Entity → Option (Neighborhood σ)

/-- A `NeighborUpdateEvent<T>`: the changed chunk's position and its new
shared datum (`None` when the datum was removed, as emitted by
`notify_neighbors_on_delete`). -/
structure NeighborUpdateEvent (σ : Type) where
  pos : IVec3
  value : Option σ

/-- One iteration of the inner loop of `consume_neighbor_update_events`:
look up the entity at `center + offset` and overwrite its cache slot at the
flipped offset `-offset` with the event's value. -/
def apply_neighbor_update {σ : Type} (index : ChunkIndex) (center : IVec3)
    (value : Option σ) (m : NeighborhoodMap σ) (offset : IVec3) :
    NeighborhoodMap σ :=
  match index.get_entity (center + offset) with
  | none => m
  | some e =>
    match m e with
    | none => m
    | some nb => updf m e (some (nb.put_chunk (-offset) value))

/-- The inner loop of `consume_neighbor_update_events` over a list of
offsets. -/
def consume_aux {σ : Type} (index : ChunkIndex) (center : IVec3)
    (value : Option σ) : List IVec3 → NeighborhoodMap σ → NeighborhoodMap σ
  | [], m => m
  | o :: rest, m =>
    consume_aux index center value rest
      (apply_neighbor_update index center value m o)

/-- `consume_neighbor_update_events`, for a single queued event: for every
offset in `{-1,0,1}^3`, the chunk at `event.pos + offset` (when present and
owning a cache) gets its slot at `-offset` overwritten with the event's
value. -/
def consume_neighbor_update_events {σ : Type} (index : ChunkIndex)
    (event : NeighborUpdateEvent σ) (m : NeighborhoodMap σ) :
    NeighborhoodMap σ :=
  consume_aux index event.pos event.value cube_iter_offsets m

/-- `notify_neighbors_on_delete`: the event queued when a chunk's
`ComponentCopy<T>` is removed (destruction), carrying its position and a
cleared value. -/
def delete_event (σ : Type) (pos : IVec3) : NeighborUpdateEvent σ :=
  ⟨pos, none⟩

/-- `emit_update_event_with_changed_neighbor`: the event queued when a
chunk's `ComponentCopy<T>` changed to `value` (a fresh publish). -/
def publish_event {σ : Type} (pos : IVec3) (value : σ) :
    NeighborUpdateEvent σ :=
  ⟨pos, some value⟩

/-! ### Async compute scheduler (`lib_async_component`) -/

/-- A spawned background `Task<T>`: an identity for its underlying
computation plus the value that computation produces. -/
structure TaskHandle (σ : Type) where
  id : Nat
  result : σ

/-- The scheduler state together with the host-world pieces the claims
mention: the `ComputeTasks<T>` registry (`tasks`, `added_since_last_update`),
the installed result component per entity, and entity liveness
(`try_insert` on a despawned entity is a no-op). -/
structure AsyncWorld (σ : Type) where
  tasks : Entity → Option (TaskHandle σ)
  added_since_last_update : Entity → Bool
  component : Entity → Option σ
  alive : Entity → Bool

/-- `ComputeTasks::spawn_task`: inserts into the registry, replacing (and
thereby dropping/cancelling) any previous task of the same owner. -/
def spawn_task {σ : Type} (w : AsyncWorld σ) (e : Entity)
    (t : TaskHandle σ) : AsyncWorld σ :=
  { w with
    tasks := updf w.tasks e (some t)
    added_since_last_update := updf w.added_since_last_update e true }

/-- `recieve_compute_tasks`: polls every in-flight task without blocking
(`finished t` tells whether the background computation of task identity `t`
has completed by this pass); a finished task installs its result on its
owner (no-op when the owner is dead) and leaves the registry. -/
def recieve_compute_tasks {σ : Type} (finished : Nat → Bool)
    (w : AsyncWorld σ) : AsyncWorld σ :=
  { w with
    tasks := fun e =>
      match w.tasks e with
      | none => none
      | some t => if finished t.id then none else some t
    component := fun e =>
      match w.tasks e with
      | none => w.component e
      | some t =>
        if finished t.id && w.alive e then some t.result
        else w.component e }

/-- Owner destruction: the `kill_compute_task` observer (`OnDespawn`)
removes the registry entry, and the despawn itself destroys the owner's
components and identity. -/
def despawn {σ : Type} (w : AsyncWorld σ) (e : Entity) : AsyncWorld σ :=
  { tasks := updf w.tasks e none
    added_since_last_update := w.added_since_last_update
    component := updf w.component e none
    alive := updf w.alive e false }

/-! ### Fractal noise (`lib_noise`), idealised over `ℚ`.

`f64` arithmetic is idealised as exact rational arithmetic; the octave
outputs (the external `Simplex` noise, each bounded in [-1, 1]) are an
arbitrary bounded function. -/

/-- `FractalNoise::new` sets `sum_of_layer_scales = 1.0 - 0.5^layers` and
stores its reciprocal. -/
def sum_of_layer_scales (layers : Nat) : ℚ :=
  1 - (1 / 2) ^ layers

/-- `FractalNoise::get` at a fixed sample point: part `k` contributes
`octave k * 0.5^k` (`FractalNoisePart::get` with amplitude `a = 0.5^k`), and
the sum is multiplied by `inverse_of_sum_of_scales`. `octave k` stands for
the raw `Simplex` output of layer `k` at the point. -/
def fractal_noise_get (layers : Nat) (octave : Nat → ℚ) : ℚ :=
  (∑ k ∈ Finset.range layers, octave k * (1 / 2) ^ k) *
    (sum_of_layer_scales layers)⁻¹

/-! ### Quad count bookkeeping (`src/mesh.rs` observers) -/

/-- `u32` wrapping subtraction (release-mode `count.0 -= len`): operands are
below `2^32`. -/
def u32_sub (a b : Nat) : Nat :=
  (a + (2 ^ 32 - b % 2 ^ 32)) % 2 ^ 32

/-- `u32` wrapping addition (`count.0 += len`). -/
def u32_add (a b : Nat) : Nat :=
  (a + b) % 2 ^ 32

/-- The mesh bookkeeping state: the `QuadCount` resource and, per entity,
the length of its live `Quads` component (if any). -/
structure MeshCountWorld where
  count : Nat
  quads : Entity → Option Nat

/-- Host operations on `Quads` components. -/
inductive QuadOp where
  | insert (e : Entity) (len : Nat)
  | remove (e : Entity)

/-- One host operation together with the three registered observers, under
Bevy's component-lifecycle semantics: an insert over an existing value fires
`OnReplace` (old value readable) then `OnInsert` (new value readable); a
removal or despawn fires `OnReplace` and then `OnRemove`, both with the
value still readable. `update_quad_count_for_replace` subtracts on
`OnReplace`, `update_quad_count_for_despawn` subtracts on `OnRemove`, and
`update_quad_count_for_insert` adds on `OnInsert`. -/
def quad_op_step (w : MeshCountWorld) : QuadOp → MeshCountWorld
  | QuadOp.insert e len =>
    match w.quads e with
    | none => ⟨u32_add w.count len, updf w.quads e (some len)⟩
    | some old =>
      ⟨u32_add (u32_sub w.count old) len, updf w.quads e (some len)⟩
  | QuadOp.remove e =>
    match w.quads e with
    | none => w
    | some l => ⟨u32_sub (u32_sub w.count l) l, updf w.quads e none⟩

/-- Run a sequence of host operations from a world state. -/
def quad_ops_run (w : MeshCountWorld) : List QuadOp → MeshCountWorld
  | [] => w
  | op :: rest => quad_ops_run (quad_op_step w op) rest

/-- The empty mesh bookkeeping world (`QuadCount::default`, no chunks). -/
def MeshCountWorld.empty : MeshCountWorld :=
  ⟨0, fun _ => none⟩

/-! ### Concrete meshing scenarios (C8) -/

/-- The flat index of local position (16,16,16). -/
def holeIndexC8 : Nat := pos_to_index_3d 16 16 16

/-- A 32³ volume entirely of solid kind A (`Stone`) except a single empty
voxel at local (16,16,16). -/
def holeBlocks : Blocks :=
  fun i => if i = holeIndexC8 then Block.Air else Block.Stone

/-- A 32³ volume entirely of solid `Stone`. -/
def solidBlocks : Blocks := fun _ => Block.Stone

/-- A neighborhood whose subject (slot 13) is `holeBlocks` and whose 26
neighbor slots are all populated with solid volumes. -/
def fullSolidHoleNeighborhood : Neighborhood Blocks :=
  ⟨fun i => if i = 13 then some holeBlocks else some solidBlocks⟩

/-- A neighborhood whose subject (slot 13) is `holeBlocks` and whose 26
neighbor slots are all absent. -/
def subjectOnlyHoleNeighborhood : Neighborhood Blocks :=
  ⟨fun i => if i = 13 then some holeBlocks else none⟩

end VoxelCore

namespace VoxelCore

/-! ### Concrete propagation scenario (C1)

Entity 1 ("A") sits at position (1,0,0); entity 0 ("B") at the origin, so A
is at relative offset d = (1,0,0) from B. Both have (initially empty)
neighbor caches. -/

/-- The index with A = entity 1 at (1,0,0) and B = entity 0 at (0,0,0). -/
def twoChunkIndex : ChunkIndex :=
  ⟨fun p => if p = ⟨1, 0, 0⟩ then some 1
            else if p = ⟨0, 0, 0⟩ then some 0 else none,
   fun e => if e = 1 then some ⟨1, 0, 0⟩
            else if e = 0 then some ⟨0, 0, 0⟩ else none⟩

/-- Both entities own an all-empty neighbor cache. -/
def twoChunkCaches : NeighborhoodMap Nat :=
  fun e => if e ≤ 1 then some ⟨fun _ => none⟩ else none

end VoxelCore

namespace VoxelCore

/-! ## Basic lemmas -/

@[simp] lemma IVec3.add_def (a b : IVec3) :
    a + b = ⟨a.x + b.x, a.y + b.y, a.z + b.z⟩ := rfl

@[simp] lemma IVec3.neg_def (a : IVec3) : -a = ⟨-a.x, -a.y, -a.z⟩ := rfl

lemma local_wrap_eq (v : Int) (h : -32 ≤ v) :
    local_wrap v = spec_local_coord v := by
  unfold local_wrap spec_local_coord CHUNK_SIZE
  have h32 : ((32 : Nat) : Int) = (32 : Int) := by norm_num
  rw [h32, Int.tmod_eq_emod (by omega) (by omega)]
  omega

lemma axis_coord_eq (v : Int) :
    get_neighborhood_axis_coord v = (spec_axis_offset v + 1).toNat := by
  unfold get_neighborhood_axis_coord spec_axis_offset CHUNK_SIZE
  split_ifs <;> simp_all
  omega

lemma spec_axis_offset_bounds (v : Int) :
    -1 ≤ spec_axis_offset v ∧ spec_axis_offset v ≤ 1 := by
  unfold spec_axis_offset
  split_ifs <;> omega

lemma at_pos_index_eq (q : IVec3) :
    get_neighborhood_axis_coord q.x + 3 * get_neighborhood_axis_coord q.y +
      9 * get_neighborhood_axis_coord q.z
    = neighborIndex (spec_neighbor_offset q) := by
  obtain ⟨hx1, hx2⟩ := spec_axis_offset_bounds q.x
  obtain ⟨hy1, hy2⟩ := spec_axis_offset_bounds q.y
  obtain ⟨hz1, hz2⟩ := spec_axis_offset_bounds q.z
  rw [axis_coord_eq, axis_coord_eq, axis_coord_eq]
  unfold neighborIndex spec_neighbor_offset
  simp only
  omega

/-! ## C5 -/

/-- `C5` — For every local voxel coordinate in the subject chunk and every
face direction, the meshing algorithm's adjacent-voxel lookup
(`Neighborhood::at_pos` followed by `unwrap_or_default`, as in
`get_quad_on_face`) equals the value of the neighbor slot selected per axis
(coordinate < 0 → offset −1, coordinate ≥ 32 → offset +1, else the subject)
at the local coordinate wrapped modulo the chunk edge length 32 in that
neighbor's own space; an absent slot resolves to the default empty block
kind `Air`. -/
theorem mesh_adjacent_resolution (nb : Neighborhood Blocks) (pos : IVec3)
    (dir : Normal)
    (hx : 0 ≤ pos.x ∧ pos.x < 32) (hy : 0 ≤ pos.y ∧ pos.y < 32)
    (hz : 0 ≤ pos.z ∧ pos.z < 32) :
    ((nb.at_pos (pos + dir.as_unit_direction)).getD default)
      = spec_resolve nb (pos + dir.as_unit_direction) := by
  set q := pos + dir.as_unit_direction with hq
  have hqx : -32 ≤ q.x := by
    cases dir <;> simp [hq, Normal.as_unit_direction] <;> omega
  have hqy : -32 ≤ q.y := by
    cases dir <;> simp [hq, Normal.as_unit_direction] <;> omega
  have hqz : -32 ≤ q.z := by
    cases dir <;> simp [hq, Normal.as_unit_direction] <;> omega
  unfold Neighborhood.at_pos spec_resolve Neighborhood.get_chunk
  simp only [at_pos_index_eq q]
  rw [local_wrap_eq q.x hqx, local_wrap_eq q.y hqy, local_wrap_eq q.z hqz]
  cases nb.chunks (neighborIndex (spec_neighbor_offset q)) <;> rfl

/-- Witness for `mesh_adjacent_resolution`: the empty neighborhood at the
boundary voxel (31,0,0), face +X. -/
theorem mesh_adjacent_resolution_witness :
    (0 ≤ (⟨31, 0, 0⟩ : IVec3).x ∧ (⟨31, 0, 0⟩ : IVec3).x < 32) ∧
    ((Neighborhood.at_pos ⟨fun _ => none⟩
        ((⟨31, 0, 0⟩ : IVec3) + Normal.PosX.as_unit_direction)).getD default
      = spec_resolve ⟨fun _ => none⟩
        ((⟨31, 0, 0⟩ : IVec3) + Normal.PosX.as_unit_direction)) :=
  ⟨by decide,
   mesh_adjacent_resolution ⟨fun _ => none⟩ ⟨31, 0, 0⟩ Normal.PosX
     (by decide) (by decide) (by decide)⟩

/-! ## C6 -/

/-- `C6` — For every emitted quad corner, `get_ambient_occlusion_factor`
equals the spec's table applied to the solidity of the two side samples and
the diagonal sample one layer beyond the face; the table gives: both sides
solid → 4 regardless of the diagonal; exactly one side solid → 3 if the
diagonal is solid else 2; neither side solid → 1 if the diagonal is solid
else 0. -/
theorem ambient_occlusion_table_correct :
    (∀ (blocks : Neighborhood Blocks) (pos : IVec3) (normal : Normal)
        (corner_index : Nat),
      get_ambient_occlusion_factor blocks pos normal corner_index
        = spec_ao_table
            (is_solid blocks (side_sample_0 pos normal corner_index))
            (is_solid blocks (side_sample_1 pos normal corner_index))
            (is_solid blocks (diagonal_sample pos normal corner_index))) ∧
    (∀ d : Bool, spec_ao_table true true d = 4) ∧
    (∀ l r : Bool, l ≠ r →
      spec_ao_table l r true = 3 ∧ spec_ao_table l r false = 2) ∧
    spec_ao_table false false true = 1 ∧
    spec_ao_table false false false = 0 := by
  refine ⟨?_, ?_, ?_, by decide, by decide⟩
  · intro blocks pos normal corner_index
    rfl
  · intro d
    cases d <;> decide
  · intro l r h
    cases l <;> cases r <;> simp_all <;> decide

/-! ## C10 -/

/-- `C10` — `Neighborhood::get_middle` and `FullNeighborhood::get_middle`
return the slot at relative offset (1,1,1), which is array index 26 — not
the slot at offset (0,0,0), index 13, the chunk's own datum — and
`Neighborhood::get_middle` panics (modelled as `none`) exactly when the slot
at offset (1,1,1) is empty. -/
theorem get_middle_returns_corner_slot :
    (∀ (σ : Type) (n : Neighborhood σ), n.get_middle = n.chunks 26) ∧
    neighborIndex ⟨1, 1, 1⟩ = 26 ∧
    neighborIndex ⟨0, 0, 0⟩ = 13 ∧
    (∀ (σ : Type) (n : Neighborhood σ),
      (n.get_middle.isNone ↔ n.chunks 26 = none)) ∧
    (∀ (σ : Type) (fn : FullNeighborhood σ), fn.get_middle = fn.chunks 26) ∧
    (∃ fn : FullNeighborhood Nat, fn.get_middle ≠ fn.chunks 13) := by
  refine ⟨fun σ n => rfl, by decide, by decide, ?_, fun σ fn => rfl, ?_⟩
  · intro σ n
    have h : n.get_middle = n.chunks 26 := rfl
    rw [h, Option.isNone_iff_eq_none]
  · refine ⟨⟨fun i => i⟩, ?_⟩
    have h : (⟨fun i => i⟩ : FullNeighborhood Nat).get_middle = 26 := rfl
    rw [h]
    decide

/-! ## C2 -/

/-- `C2` — After any single slot transition of a chunk's `Neighborhood<T>`
(a `put_chunk` at a relative offset in {-1,0,1}³, making a slot `Some` or
`None`), running the two maintenance systems leaves the `FullNeighborhood`
component present iff the number of populated slots is 27: it is published
when all 27 slots are `Some` and removed as soon as any slot is `None`. -/
theorem full_neighborhood_present_iff (σ : Type) [Inhabited σ]
    (n : Neighborhood σ) (full : Option (FullNeighborhood σ)) (p : IVec3)
    (v : Option σ)
    (hx : -1 ≤ p.x ∧ p.x ≤ 1) (hy : -1 ≤ p.y ∧ p.y ≤ 1)
    (hz : -1 ≤ p.z ∧ p.z ≤ 1) :
    ((full_neighborhood_step (n.put_chunk p v) full).isSome
      ↔ popCount (n.put_chunk p v) = 27) := by
  set n' := n.put_chunk p v
  unfold full_neighborhood_step assign_full_neighborhood
    revoke_full_neighborhood popCount
  by_cases hall : ∀ i ∈ List.range 27, (n'.chunks i).isSome = true
  · have hany : ((List.range 27).any fun i => (n'.chunks i).isNone) = false := by
      simp only [List.any_eq_false]
      intro i hi
      have h := hall i hi
      cases hcc : n'.chunks i with
      | none => rw [hcc] at h; simp at h
      | some w => simp
    have hallb : ((List.range 27).all fun i => (n'.chunks i).isSome) = true :=
      List.all_eq_true.mpr hall
    rw [hany]
    simp only [Bool.false_eq_true, if_false, hallb, if_true]
    simp only [Option.isSome_some, true_iff]
    rw [List.countP_eq_length.mpr hall, List.length_range]
  · have hcount : ((List.range 27).countP fun i => (n'.chunks i).isSome) ≠ 27 := by
      intro hc
      exact hall (List.countP_eq_length.mp (by rw [hc, List.length_range]))
    have hany : ((List.range 27).any fun i => (n'.chunks i).isNone) = true := by
      rw [List.any_eq_true]
      push_neg at hall
      obtain ⟨i, hi, hns⟩ := hall
      refine ⟨i, hi, ?_⟩
      cases hcc : n'.chunks i with
      | none => rfl
      | some w => rw [hcc] at hns; simp at hns
    have hnall : ((List.range 27).all fun i => (n'.chunks i).isSome) = false := by
      rw [List.all_eq_false]
      push_neg at hall
      obtain ⟨i, hi, hns⟩ := hall
      exact ⟨i, hi, hns⟩
    rw [hany]
    simp only [if_true, hnall]
    cases full <;> simp [hcount, hnall]

/-- Witness for `full_neighborhood_present_iff`: clearing slot (0,0,0) of a
fully populated cache. -/
theorem full_neighborhood_present_iff_witness :
    ((-1 : Int) ≤ (0 : Int) ∧ (0 : Int) ≤ 1) ∧
    ((full_neighborhood_step
        ((⟨fun _ => some 0⟩ : Neighborhood Nat).put_chunk ⟨0, 0, 0⟩ none)
        (some ⟨fun _ => 0⟩)).isSome
      ↔ popCount ((⟨fun _ => some 0⟩ : Neighborhood Nat).put_chunk
          ⟨0, 0, 0⟩ none) = 27) :=
  ⟨by decide,
   full_neighborhood_present_iff Nat ⟨fun _ => some 0⟩ (some ⟨fun _ => 0⟩)
     ⟨0, 0, 0⟩ none (by decide) (by decide) (by decide)⟩

end VoxelCore

namespace VoxelCore

/-- `C3` — index consistency. -/
theorem chunk_index_consistent (idx : ChunkIndex) (h : IndexReachable idx)
    (e : Entity) (p : IVec3) :
    idx.position_by_entity e = some p ↔ idx.entity_by_position p = some e := by
  induction h generalizing e p with
  | empty => simp [ChunkIndex.empty]
  | register hreach hep hpe ih =>
    rename_i idx' e0 p0
    have l1 : (add_to_index idx' e0 p0).position_by_entity e
        = if e = e0 then some p0 else idx'.position_by_entity e := rfl
    have l2 : (add_to_index idx' e0 p0).entity_by_position p
        = if p = p0 then some e0 else idx'.entity_by_position p := rfl
    rw [l1, l2]
    by_cases he : e = e0 <;> by_cases hp : p = p0
    · rw [if_pos he, if_pos hp, he, hp]
      simp
    · rw [if_pos he, if_neg hp]
      refine iff_of_false (fun hc => hp (Option.some.inj hc).symm) (fun hc => ?_)
      rw [he] at hc
      have h2 := (ih e0 p).mpr hc
      rw [hpe] at h2
      exact Option.noConfusion h2
    · rw [if_neg he, if_pos hp]
      refine iff_of_false (fun hc => ?_) (fun hc => he (Option.some.inj hc).symm)
      rw [hp] at hc
      have h2 := (ih e p0).mp hc
      rw [hep] at h2
      exact Option.noConfusion h2
    · rw [if_neg he, if_neg hp]
      exact ih e p
  | unregister hreach hpe ih =>
    rename_i idx' e0 p0
    have l1 : (remove_from_index idx' e0 p0).position_by_entity e
        = if e = e0 then none else idx'.position_by_entity e := rfl
    have l2 : (remove_from_index idx' e0 p0).entity_by_position p
        = if p = p0 then none else idx'.entity_by_position p := rfl
    rw [l1, l2]
    by_cases he : e = e0 <;> by_cases hp : p = p0
    · rw [if_pos he, if_pos hp]
      exact iff_of_false (fun hc => Option.noConfusion hc)
        (fun hc => Option.noConfusion hc)
    · rw [if_pos he, if_neg hp]
      refine iff_of_false (fun hc => Option.noConfusion hc) (fun hc => ?_)
      rw [he] at hc
      have h2 := (ih e0 p).mpr hc
      rw [hpe] at h2
      exact hp (Option.some.inj h2).symm
    · rw [if_neg he, if_pos hp]
      refine iff_of_false (fun hc => ?_) (fun hc => Option.noConfusion hc)
      rw [hp] at hc
      have h2 := (ih e p0).mp hc
      have h3 := (ih e0 p0).mp hpe
      rw [h3] at h2
      exact he (Option.some.inj h2).symm
    · rw [if_neg he, if_neg hp]
      exact ih e p

/-- Witness for `chunk_index_consistent`: register entities 1 and 2, then
unregister entity 1; entity 2 still round-trips. -/
theorem chunk_index_consistent_witness :
    (remove_from_index
        (add_to_index (add_to_index ChunkIndex.empty 1 ⟨0, 0, 0⟩) 2 ⟨1, 0, 0⟩)
        1 ⟨0, 0, 0⟩).position_by_entity 2 = some ⟨1, 0, 0⟩
      ↔ (remove_from_index
        (add_to_index (add_to_index ChunkIndex.empty 1 ⟨0, 0, 0⟩) 2 ⟨1, 0, 0⟩)
        1 ⟨0, 0, 0⟩).entity_by_position ⟨1, 0, 0⟩ = some 2 :=
  chunk_index_consistent _
    (IndexReachable.unregister
      (IndexReachable.register
        (IndexReachable.register IndexReachable.empty rfl rfl)
        (by decide) (by decide))
      (by decide))
    2 ⟨1, 0, 0⟩

end VoxelCore

namespace VoxelCore

@[simp] lemma updf_self {α β : Type} [DecidableEq α] (f : α → β) (a : α)
    (b : β) : updf f a b a = b := by
  simp [updf]

@[simp] lemma updf_other {α β : Type} [DecidableEq α] (f : α → β) (a x : α)
    (b : β) (h : x ≠ a) : updf f a b x = f x := by
  simp [updf, h]

/-- An offset whose lookup does not resolve to `b` leaves `b`'s cache
untouched. -/
lemma apply_neighbor_update_other {σ : Type} (index : ChunkIndex)
    (center : IVec3) (value : Option σ) (m : NeighborhoodMap σ) (o : IVec3)
    (b : Entity) (h : index.get_entity (center + o) ≠ some b) :
    apply_neighbor_update index center value m o b = m b := by
  unfold apply_neighbor_update
  cases hc : index.get_entity (center + o) with
  | none => rfl
  | some e =>
    dsimp only
    cases hm : m e with
    | none => rfl
    | some nb =>
      have hne : b ≠ e := fun hh => h (by rw [hh]; exact hc)
      dsimp only
      exact updf_other _ _ _ _ hne

lemma consume_aux_not_touched {σ : Type} (index : ChunkIndex)
    (center : IVec3) (value : Option σ) (l : List IVec3) (b : Entity)
    (h : ∀ o ∈ l, index.get_entity (center + o) ≠ some b) :
    ∀ m : NeighborhoodMap σ, consume_aux index center value l m b = m b := by
  induction l with
  | nil => intro m; rfl
  | cons o rest ih =>
    intro m
    have h0 := h o (List.mem_cons_self o rest)
    have step := apply_neighbor_update_other index center value m o b h0
    unfold consume_aux
    rw [ih (fun o' ho' => h o' (List.mem_cons_of_mem o ho')), step]

/-- The value of `b`'s cache after the inner loop, when exactly one offset
resolves to `b`. -/
lemma consume_aux_at {σ : Type} (index : ChunkIndex) (center : IVec3)
    (value : Option σ) (l : List IVec3) (b : Entity) (o₀ : IVec3)
    (hmem : o₀ ∈ l) (hnodup : l.Nodup)
    (hb : index.get_entity (center + o₀) = some b)
    (huniq : ∀ o ∈ l, index.get_entity (center + o) = some b → o = o₀) :
    ∀ m : NeighborhoodMap σ, consume_aux index center value l m b
      = (m b).map (fun nb => nb.put_chunk (-o₀) value) := by
  induction l with
  | nil => exact absurd hmem (List.not_mem_nil o₀)
  | cons o rest ih =>
    intro m
    rcases List.mem_cons.mp hmem with ho | ho
    · have hrest : ∀ o' ∈ rest, index.get_entity (center + o') ≠ some b := by
        intro o' ho' hc
        have he := huniq o' (List.mem_cons_of_mem o ho') hc
        rw [he, ho] at ho'
        exact (List.nodup_cons.mp hnodup).1 ho'
      unfold consume_aux
      rw [consume_aux_not_touched index center value rest b hrest]
      unfold apply_neighbor_update
      rw [← ho, hb]
      dsimp only
      cases hm : m b with
      | none =>
        dsimp only
        rw [hm]
        rfl
      | some nb =>
        dsimp only
        rw [updf_self]
        rfl
    · have hne : o ≠ o₀ := by
        intro hh
        rw [hh] at hnodup
        exact (List.nodup_cons.mp hnodup).1 ho
      have hnotb : index.get_entity (center + o) ≠ some b := by
        intro hc
        exact hne (huniq o (List.mem_cons_self o rest) hc)
      unfold consume_aux
      have step := apply_neighbor_update_other index center value m o b hnotb
      rw [ih ho (List.nodup_cons.mp hnodup).2
        (fun o' ho' hc => huniq o' (List.mem_cons_of_mem o ho') hc)]
      rw [step]

end VoxelCore

namespace VoxelCore

@[simp] lemma get_put_same {σ : Type} (n : Neighborhood σ) (p : IVec3)
    (v : Option σ) : (n.put_chunk p v).get_chunk p = v := by
  simp [Neighborhood.put_chunk, Neighborhood.get_chunk]

lemma cube_iter_offsets_nodup : cube_iter_offsets.Nodup := by decide

/-- `C1` (amended) — propagation writes the source's datum into the
destination's slot at the source's own relative offset `d`. -/
theorem neighbor_propagation_updates_slot (σ : Type) (index : ChunkIndex)
    (m : NeighborhoodMap σ) (pb d : IVec3) (b : Entity) (v : σ)
    (NB : Neighborhood σ)
    (hd : (d.x = -1 ∨ d.x = 0 ∨ d.x = 1) ∧ (d.y = -1 ∨ d.y = 0 ∨ d.y = 1) ∧
      (d.z = -1 ∨ d.z = 0 ∨ d.z = 1))
    (hb : index.get_entity pb = some b)
    (hnb : m b = some NB)
    (huniq : ∀ p : IVec3, index.get_entity p = some b → p = pb) :
    ((consume_neighbor_update_events index (publish_event (pb + d) v) m) b).map
        (fun nb => nb.get_chunk d) = some (some v)
    ∧ ((consume_neighbor_update_events index (delete_event σ (pb + d)) m) b).map
        (fun nb => nb.get_chunk d) = some none := by
  have hpb : (pb + d) + -d = pb := by
    cases pb; cases d
    simp only [IVec3.add_def, IVec3.neg_def, IVec3.mk.injEq]
    omega
  have hmem : -d ∈ cube_iter_offsets := by
    cases d
    simp only [IVec3.neg_def]
    simp only at hd
    obtain ⟨hx | hx | hx, hy | hy | hy, hz | hz | hz⟩ := hd <;>
      rw [hx, hy, hz] <;> decide
  have hb' : index.get_entity ((pb + d) + -d) = some b := by rw [hpb]; exact hb
  have huniq' : ∀ o ∈ cube_iter_offsets,
      index.get_entity ((pb + d) + o) = some b → o = -d := by
    intro o _ hc
    have heq := huniq _ hc
    cases o; cases pb; cases d
    simp only [IVec3.add_def, IVec3.mk.injEq] at heq
    simp only [IVec3.neg_def, IVec3.mk.injEq]
    omega
  have hneg : -(-d) = d := by
    cases d
    simp only [IVec3.neg_def, IVec3.mk.injEq]
    omega
  constructor
  · have h := consume_aux_at index (pb + d) (some v) cube_iter_offsets b (-d)
      hmem cube_iter_offsets_nodup hb' huniq' m
    unfold consume_neighbor_update_events publish_event
    rw [h, hnb, hneg]
    simp
  · have h := consume_aux_at index (pb + d) (none : Option σ) cube_iter_offsets
      b (-d) hmem cube_iter_offsets_nodup hb' huniq' m
    unfold consume_neighbor_update_events delete_event
    rw [h, hnb, hneg]
    simp

/-- Witness for `neighbor_propagation_updates_slot` on the two-chunk
scenario. -/
theorem neighbor_propagation_updates_slot_witness :
    ((consume_neighbor_update_events twoChunkIndex
        (publish_event ((⟨0,0,0⟩ : IVec3) + ⟨1,0,0⟩) (42 : Nat))
        twoChunkCaches) 0).map (fun nb => nb.get_chunk ⟨1,0,0⟩)
      = some (some 42)
    ∧ ((consume_neighbor_update_events twoChunkIndex
        (delete_event Nat ((⟨0,0,0⟩ : IVec3) + ⟨1,0,0⟩))
        twoChunkCaches) 0).map (fun nb => nb.get_chunk ⟨1,0,0⟩)
      = some none :=
  neighbor_propagation_updates_slot Nat twoChunkIndex twoChunkCaches
    ⟨0,0,0⟩ ⟨1,0,0⟩ 0 42 ⟨fun _ => none⟩
    (by decide)
    (by decide)
    rfl
    (by
      intro p hp
      by_cases h1 : p = ⟨1,0,0⟩
      · rw [h1] at hp
        exact absurd hp (by decide)
      · by_cases h2 : p = ⟨0,0,0⟩
        · exact h2
        · unfold twoChunkIndex ChunkIndex.get_entity at hp
          dsimp only at hp
          rw [if_neg h1, if_neg h2] at hp
          exact Option.noConfusion hp)

/-- `C1` (counterexample to the claim as stated) — with A (entity 1) at
relative offset d = (1,0,0) from B (entity 0), after A publishes 42 B's
cache slot at −d = (−1,0,0) does NOT hold A's datum (it is still empty); the
datum lands in the slot at +d. -/
theorem neighbor_propagation_offset_counterexample :
    ((consume_neighbor_update_events twoChunkIndex
        (publish_event ⟨1,0,0⟩ (42 : Nat)) twoChunkCaches) 0).map
        (fun nb => nb.get_chunk ⟨-1,0,0⟩) = some none
    ∧ ((consume_neighbor_update_events twoChunkIndex
        (publish_event ⟨1,0,0⟩ (42 : Nat)) twoChunkCaches) 0).map
        (fun nb => nb.get_chunk ⟨1,0,0⟩) = some (some 42) := by
  constructor <;> decide

end VoxelCore

namespace VoxelCore

/-- `C4` — (a) spawning a second task for the same owner before the first
completes leaves exactly one installed result, the second task's, once the
second completes (regardless of whether the first's computation ever
finishes); (b) destroying the owner before completion leaves zero installed
results and zero residual registry entries, for any subsequent poll. -/
theorem compute_task_lifecycle (σ : Type) (w : AsyncWorld σ) (e : Entity)
    (t1 t2 t3 : TaskHandle σ) (fin fin2 : Nat → Bool)
    (halive : w.alive e = true) (hfin : fin t2.id = true) :
    ((recieve_compute_tasks fin (spawn_task (spawn_task w e t1) e t2)).component e
        = some t2.result
      ∧ (recieve_compute_tasks fin (spawn_task (spawn_task w e t1) e t2)).tasks e
        = none)
    ∧ ((recieve_compute_tasks fin2 (despawn (spawn_task w e t3) e)).component e
        = none
      ∧ (recieve_compute_tasks fin2 (despawn (spawn_task w e t3) e)).tasks e
        = none) := by
  refine ⟨⟨?_, ?_⟩, ?_, ?_⟩
  · unfold recieve_compute_tasks spawn_task
    simp [updf, hfin, halive]
  · unfold recieve_compute_tasks spawn_task
    simp [updf, hfin]
  · unfold recieve_compute_tasks despawn spawn_task
    simp [updf]
  · unfold recieve_compute_tasks despawn spawn_task
    simp [updf]

/-- Witness for `compute_task_lifecycle` with concrete tasks over `Nat`. -/
theorem compute_task_lifecycle_witness :
    (((recieve_compute_tasks (fun _ => true)
        (spawn_task (spawn_task ⟨fun _ => none, fun _ => false, fun _ => none,
          fun _ => true⟩ 0 ⟨1, 10⟩) 0 ⟨2, 20⟩)).component 0 = some 20
      ∧ (recieve_compute_tasks (fun _ => true)
        (spawn_task (spawn_task ⟨fun _ => none, fun _ => false, fun _ => none,
          fun _ => true⟩ 0 ⟨1, 10⟩) 0 ⟨2, 20⟩)).tasks 0 = none)
    ∧ ((recieve_compute_tasks (fun _ => true)
        (despawn (spawn_task ⟨fun _ => none, fun _ => false, fun _ => none,
          fun _ => true⟩ 0 ⟨3, 30⟩) 0)).component 0 = none
      ∧ (recieve_compute_tasks (fun _ => true)
        (despawn (spawn_task ⟨fun _ => none, fun _ => false, fun _ => none,
          fun _ => true⟩ 0 ⟨3, 30⟩) 0)).tasks 0 = none)) :=
  compute_task_lifecycle Nat
    ⟨fun _ => none, fun _ => false, fun _ => none, fun _ => true⟩
    0 ⟨1, 10⟩ ⟨2, 20⟩ ⟨3, 30⟩ (fun _ => true) (fun _ => true) rfl rfl

end VoxelCore

namespace VoxelCore

/-- `C7` (counterexample to the claim as stated) — with 2 layers and every
octave outputting its maximal value 1, `FractalNoise::get` evaluates to 2,
outside [-1, 1]; the normalisation constant `1 - 0.5^N` is half the sum of
the octave amplitudes. -/
theorem fractal_noise_unit_bound_counterexample :
    (∀ k : Nat, |(1 : ℚ)| ≤ 1) ∧
    fractal_noise_get 2 (fun _ => 1) = 2 ∧
    ¬(|fractal_noise_get 2 (fun _ => 1)| ≤ 1) := by
  refine ⟨fun k => by norm_num, ?_, ?_⟩
  · unfold fractal_noise_get sum_of_layer_scales
    rw [Finset.sum_range_succ, Finset.sum_range_succ, Finset.sum_range_zero]
    norm_num
  · unfold fractal_noise_get sum_of_layer_scales
    rw [Finset.sum_range_succ, Finset.sum_range_succ, Finset.sum_range_zero]
    norm_num

/-- `C7` (amended) — for every layer count N ≥ 1 and octave outputs bounded
in [-1, 1], `FractalNoise::get` is bounded in [-2, 2] (not [-1, 1]), and the
sum of the octave amplitudes after normalisation is exactly 2 for every N. -/
theorem fractal_noise_bounded_by_two (N : Nat) (octave : Nat → ℚ)
    (hN : 1 ≤ N) (hoct : ∀ k, |octave k| ≤ 1) :
    |fractal_noise_get N octave| ≤ 2
    ∧ (∑ k ∈ Finset.range N, |((1 : ℚ) / 2) ^ k|) *
        (sum_of_layer_scales N)⁻¹ = 2 := by
  have hpowlt : ((1 : ℚ) / 2) ^ N < 1 :=
    pow_lt_one₀ (by norm_num) (by norm_num) (by omega)
  have hS : 0 < sum_of_layer_scales N := by
    unfold sum_of_layer_scales
    linarith
  have hSne : sum_of_layer_scales N ≠ 0 := ne_of_gt hS
  have hgeom : ∑ k ∈ Finset.range N, ((1 : ℚ) / 2) ^ k
      = 2 * sum_of_layer_scales N := by
    rw [geom_sum_eq (by norm_num : ((1 : ℚ) / 2) ≠ 1)]
    unfold sum_of_layer_scales
    field_simp
    ring
  have habs : ∀ k : Nat, |((1 : ℚ) / 2) ^ k| = ((1 : ℚ) / 2) ^ k :=
    fun k => abs_of_nonneg (by positivity)
  constructor
  · unfold fractal_noise_get
    rw [abs_mul, abs_of_nonneg (le_of_lt (inv_pos.mpr hS))]
    have hsum : |∑ k ∈ Finset.range N, octave k * ((1 : ℚ) / 2) ^ k|
        ≤ 2 * sum_of_layer_scales N := by
      calc |∑ k ∈ Finset.range N, octave k * ((1 : ℚ) / 2) ^ k|
          ≤ ∑ k ∈ Finset.range N, |octave k * ((1 : ℚ) / 2) ^ k| :=
            Finset.abs_sum_le_sum_abs _ _
        _ ≤ ∑ k ∈ Finset.range N, ((1 : ℚ) / 2) ^ k := by
            refine Finset.sum_le_sum (fun k _ => ?_)
            rw [abs_mul, habs]
            calc |octave k| * ((1 : ℚ) / 2) ^ k
                ≤ 1 * ((1 : ℚ) / 2) ^ k := by
                  exact mul_le_mul_of_nonneg_right (hoct k) (by positivity)
              _ = ((1 : ℚ) / 2) ^ k := one_mul _
        _ = 2 * sum_of_layer_scales N := hgeom
    calc |∑ k ∈ Finset.range N, octave k * ((1 : ℚ) / 2) ^ k| *
          (sum_of_layer_scales N)⁻¹
        ≤ (2 * sum_of_layer_scales N) * (sum_of_layer_scales N)⁻¹ :=
          mul_le_mul_of_nonneg_right hsum (le_of_lt (inv_pos.mpr hS))
      _ = 2 := by
          rw [mul_assoc, mul_inv_cancel₀ hSne, mul_one]
  · simp only [habs]
    rw [hgeom, mul_assoc, mul_inv_cancel₀ hSne, mul_one]

/-- Witness for `fractal_noise_bounded_by_two` at N = 1, octaves ≡ 1. -/
theorem fractal_noise_bounded_by_two_witness :
    |fractal_noise_get 1 (fun _ => 1)| ≤ 2
    ∧ (∑ k ∈ Finset.range 1, |((1 : ℚ) / 2) ^ k|) *
        (sum_of_layer_scales 1)⁻¹ = 2 :=
  fractal_noise_bounded_by_two 1 (fun _ => 1) (by norm_num)
    (fun k => by norm_num)

/-- `C9` — evaluating the bookkeeping at the failing input: inserting a
1-quad mesh on an entity and then removing it fires both the `OnReplace` and
`OnRemove` observers, so `QuadCount` is decremented twice and wraps to
`2^32 - 1`, while the sum over live `Quads` lists is 0. -/
theorem quad_count_double_decrement_on_remove :
    (quad_ops_run MeshCountWorld.empty
      [QuadOp.insert 0 1, QuadOp.remove 0]).count = 4294967295
    ∧ ∀ e : Entity, (quad_ops_run MeshCountWorld.empty
      [QuadOp.insert 0 1, QuadOp.remove 0]).quads e = none := by
  constructor
  · decide
  · intro e
    have hrun : (quad_ops_run MeshCountWorld.empty
        [QuadOp.insert 0 1, QuadOp.remove 0]).quads
      = updf (updf (fun _ => none) 0 (some 1)) 0 none := rfl
    rw [hrun]
    by_cases he : e = 0
    · rw [he, updf_self]
    · rw [updf_other _ _ _ _ he, updf_other _ _ _ _ he]

end VoxelCore

namespace VoxelCore

lemma sum_map_flatMap {α β : Type} (l : List α) (F : α → List β)
    (g : β → Nat) :
    ((l.flatMap F).map g).sum = (l.map (fun a => ((F a).map g).sum)).sum := by
  induction l with
  | nil => rfl
  | cons a rest ih =>
    simp only [List.flatMap_cons, List.map_cons, List.map_append,
      List.sum_append, List.sum_cons, ih]

lemma sum_map_add {α : Type} (l : List α) (f g : α → Nat) :
    (l.map (fun a => f a + g a)).sum = (l.map f).sum + (l.map g).sum := by
  induction l with
  | nil => rfl
  | cons a rest ih =>
    simp only [List.map_cons, List.sum_cons, ih]
    omega

lemma sum_map_zero {α : Type} (l : List α) :
    (l.map (fun _ => (0 : Nat))).sum = 0 := by
  induction l with
  | nil => rfl
  | cons a rest ih => simp only [List.map_cons, List.sum_cons, ih]

lemma sum_map_const {α : Type} (l : List α) (K : Nat) :
    (l.map (fun _ => K)).sum = l.length * K := by
  induction l with
  | nil => simp
  | cons a rest ih =>
    simp only [List.map_cons, List.sum_cons, ih, List.length_cons]
    ring

lemma sum_map_ite_const {α : Type} (l : List α) (P : Prop) [Decidable P]
    (f : α → Nat) :
    (l.map (fun a => if P then f a else 0)).sum
      = if P then (l.map f).sum else 0 := by
  by_cases hP : P
  · simp only [hP, if_true]
  · simp only [hP, if_false, sum_map_zero]

lemma sum_range_indicator (n a : Nat) (ha : a < n) (K : Nat) :
    ((List.range n).map (fun x => if x = a then K else 0)).sum = K := by
  induction n with
  | zero => omega
  | succ n ih =>
    rw [List.range_succ, List.map_append, List.sum_append]
    by_cases han : a = n
    · have hpre : ((List.range n).map (fun x => if x = a then K else 0)).sum
          = 0 := by
        rw [List.map_congr_left (g := fun _ => (0 : Nat))
          (fun x hx => by
            rw [if_neg]
            intro hxa
            rw [hxa, han] at hx
            exact absurd (List.mem_range.mp hx) (lt_irrefl n))]
        exact sum_map_zero _
      rw [hpre]
      simp [han.symm]
    · have hlt : a < n := by omega
      rw [ih hlt]
      rw [List.map_singleton, if_neg (fun hh : n = a => han hh.symm)]
      simp

end VoxelCore

namespace VoxelCore

lemma axis_coord_in (v : Int) (h : 0 ≤ v ∧ v < 32) :
    get_neighborhood_axis_coord v = 1 := by
  unfold get_neighborhood_axis_coord CHUNK_SIZE
  rw [if_neg (by omega), if_pos (by push_cast; omega)]

lemma axis_coord_ne_one (v : Int) (h : v < 0 ∨ 32 ≤ v) :
    get_neighborhood_axis_coord v ≠ 1 := by
  unfold get_neighborhood_axis_coord CHUNK_SIZE
  rcases h with h | h
  · rw [if_pos h]
    omega
  · rw [if_neg (by omega), if_neg (by push_cast; omega)]
    omega

lemma axis_coord_le_two (v : Int) : get_neighborhood_axis_coord v ≤ 2 := by
  unfold get_neighborhood_axis_coord
  split_ifs <;> omega

lemma local_wrap_in (v : Int) (h : 0 ≤ v ∧ v < 32) :
    local_wrap v = v.toNat := by
  unfold local_wrap CHUNK_SIZE
  have h32 : ((32 : Nat) : Int) = (32 : Int) := by norm_num
  rw [h32, Int.tmod_eq_emod (by omega) (by omega)]
  omega

/-- The slot index chosen by `at_pos` is 13 (the subject) iff all three
coordinates are in bounds. -/
lemma at_pos_slot_13_iff (q : IVec3) :
    get_neighborhood_axis_coord q.x + 3 * get_neighborhood_axis_coord q.y +
        9 * get_neighborhood_axis_coord q.z = 13
      ↔ ((0 ≤ q.x ∧ q.x < 32) ∧ (0 ≤ q.y ∧ q.y < 32) ∧
         (0 ≤ q.z ∧ q.z < 32)) := by
  constructor
  · intro h
    by_cases hx : 0 ≤ q.x ∧ q.x < 32
    all_goals by_cases hy : 0 ≤ q.y ∧ q.y < 32
    all_goals by_cases hz : 0 ≤ q.z ∧ q.z < 32
    · exact ⟨hx, hy, hz⟩
    all_goals
      exfalso
      have bx := axis_coord_le_two q.x
      have by' := axis_coord_le_two q.y
      have bz := axis_coord_le_two q.z
      first
      | (have hne := axis_coord_ne_one q.z (by omega)
         first
         | (have hex := axis_coord_in q.x hx; have hey := axis_coord_in q.y hy
            omega)
         | omega)
      | (have hne := axis_coord_ne_one q.y (by omega); omega)
      | (have hne := axis_coord_ne_one q.x (by omega); omega)
  · rintro ⟨hx, hy, hz⟩
    rw [axis_coord_in q.x hx, axis_coord_in q.y hy, axis_coord_in q.z hz]

end VoxelCore

namespace VoxelCore

lemma hole_index_iff (q : IVec3)
    (hx : 0 ≤ q.x ∧ q.x < 32) (hy : 0 ≤ q.y ∧ q.y < 32)
    (hz : 0 ≤ q.z ∧ q.z < 32) :
    (pos_to_index_3d q.x.toNat q.y.toNat q.z.toNat = holeIndexC8
      ↔ q = (⟨16, 16, 16⟩ : IVec3)) := by
  unfold holeIndexC8 pos_to_index_3d CHUNK_SIZE
  cases q with
  | mk a b c =>
    simp only [IVec3.mk.injEq] at hx hy hz ⊢
    constructor
    · intro h
      refine ⟨?_, ?_, ?_⟩ <;> omega
    · rintro ⟨h1, h2, h3⟩
      omega

/-- `at_pos` on the all-solid-with-hole neighborhood: the hole is visible
exactly at (16,16,16); every other position (in or out of bounds) reads
solid `Stone`. -/
lemma fullSolid_at_pos (q : IVec3) :
    fullSolidHoleNeighborhood.at_pos q
      = some (if q = (⟨16, 16, 16⟩ : IVec3) then Block.Air
              else Block.Stone) := by
  unfold Neighborhood.at_pos fullSolidHoleNeighborhood
  dsimp only
  by_cases hin : (0 ≤ q.x ∧ q.x < 32) ∧ (0 ≤ q.y ∧ q.y < 32) ∧
      (0 ≤ q.z ∧ q.z < 32)
  · obtain ⟨hx, hy, hz⟩ := hin
    have h13 := (at_pos_slot_13_iff q).mpr ⟨hx, hy, hz⟩
    rw [h13, if_pos rfl]
    rw [local_wrap_in q.x hx, local_wrap_in q.y hy, local_wrap_in q.z hz]
    unfold holeBlocks Blocks.at_pos
    simp only [Option.map_some']
    by_cases hq : q = (⟨16, 16, 16⟩ : IVec3)
    · rw [if_pos hq, if_pos ((hole_index_iff q hx hy hz).mpr hq)]
    · rw [if_neg hq, if_neg (fun hc => hq ((hole_index_iff q hx hy hz).mp hc))]
  · have h13 : get_neighborhood_axis_coord q.x +
        3 * get_neighborhood_axis_coord q.y +
        9 * get_neighborhood_axis_coord q.z ≠ 13 :=
      fun hc => hin ((at_pos_slot_13_iff q).mp hc)
    rw [if_neg h13]
    have hq : q ≠ (⟨16, 16, 16⟩ : IVec3) := by
      intro hc
      rw [hc] at hin
      exact hin (by norm_num)
    rw [if_neg hq]
    rfl

/-- `at_pos` on the subject-only neighborhood: out-of-bounds positions read
an absent slot (`none`); in-bounds positions read the subject volume. -/
lemma subjectOnly_at_pos (q : IVec3) :
    subjectOnlyHoleNeighborhood.at_pos q
      = if (0 ≤ q.x ∧ q.x < 32) ∧ (0 ≤ q.y ∧ q.y < 32) ∧
           (0 ≤ q.z ∧ q.z < 32)
        then some (if q = (⟨16, 16, 16⟩ : IVec3) then Block.Air
                   else Block.Stone)
        else none := by
  unfold Neighborhood.at_pos subjectOnlyHoleNeighborhood
  dsimp only
  by_cases hin : (0 ≤ q.x ∧ q.x < 32) ∧ (0 ≤ q.y ∧ q.y < 32) ∧
      (0 ≤ q.z ∧ q.z < 32)
  · obtain ⟨hx, hy, hz⟩ := hin
    have h13 := (at_pos_slot_13_iff q).mpr ⟨hx, hy, hz⟩
    rw [h13, if_pos rfl, if_pos ⟨hx, hy, hz⟩]
    rw [local_wrap_in q.x hx, local_wrap_in q.y hy, local_wrap_in q.z hz]
    unfold holeBlocks Blocks.at_pos
    simp only [Option.map_some']
    by_cases hq : q = (⟨16, 16, 16⟩ : IVec3)
    · rw [if_pos hq, if_pos ((hole_index_iff q hx hy hz).mpr hq)]
    · rw [if_neg hq, if_neg (fun hc => hq ((hole_index_iff q hx hy hz).mp hc))]
  · have h13 : get_neighborhood_axis_coord q.x +
        3 * get_neighborhood_axis_coord q.y +
        9 * get_neighborhood_axis_coord q.z ≠ 13 :=
      fun hc => hin ((at_pos_slot_13_iff q).mp hc)
    rw [if_neg h13, if_neg hin]
    rfl

end VoxelCore

namespace VoxelCore

/-- On the full neighborhood, a face quad is emitted iff the voxel is not
the hole and its face-adjacent voxel is the hole. -/
lemma full_quad_isSome (pos : IVec3) (n : Normal) :
    (get_quad_on_face fullSolidHoleNeighborhood pos n).isSome
      = (decide (pos ≠ (⟨16, 16, 16⟩ : IVec3)) &&
         decide (pos + n.as_unit_direction = (⟨16, 16, 16⟩ : IVec3))) := by
  unfold get_quad_on_face
  dsimp only
  rw [fullSolid_at_pos pos, fullSolid_at_pos (pos + n.as_unit_direction)]
  have hfAir : (some Block.Air).filter (fun b => b ≠ Block.Air) = none := rfl
  have hfStone : (some Block.Stone).filter (fun b => b ≠ Block.Air)
      = some Block.Stone := rfl
  by_cases h1 : pos = (⟨16, 16, 16⟩ : IVec3)
  · rw [if_pos h1, hfAir]
    rw [decide_eq_false (fun hc : pos ≠ _ => hc h1)]
    rfl
  · rw [if_neg h1, hfStone]
    dsimp only
    by_cases h2 : pos + n.as_unit_direction = (⟨16, 16, 16⟩ : IVec3)
    · rw [if_pos h2, decide_eq_true h2, decide_eq_true h1]
      rfl
    · rw [if_neg h2, decide_eq_false h2]
      simp [Block.is_transparent]

lemma length_around_eq_countP (nb : Neighborhood Blocks) (pos : IVec3) :
    (get_quads_around_block nb pos).length
      = allNormals.countP (fun n => (get_quad_on_face nb pos n).isSome) := by
  unfold get_quads_around_block
  exact List.length_filterMap_eq_countP _ _

lemma normal_indicator_eq (pos : IVec3) (s : IVec3) (d : IVec3)
    (hs : s + d = (⟨16, 16, 16⟩ : IVec3))
    (hsne : s ≠ (⟨16, 16, 16⟩ : IVec3)) :
    (if (decide (pos ≠ (⟨16, 16, 16⟩ : IVec3)) &&
         decide (pos + d = (⟨16, 16, 16⟩ : IVec3))) = true
     then (1 : Nat) else 0)
      = if pos = s then 1 else 0 := by
  by_cases hp : pos = s
  · rw [if_pos hp, hp, if_pos]
    simp only [Bool.and_eq_true, decide_eq_true_eq]
    exact ⟨hsne, hs⟩
  · rw [if_neg hp, if_neg]
    simp only [Bool.and_eq_true, decide_eq_true_eq, not_and]
    intro _ hc
    apply hp
    have heq : pos + d = s + d := by rw [hc, hs]
    cases pos; cases s; cases d
    simp only [IVec3.add_def, IVec3.mk.injEq] at heq ⊢
    omega

/-- Per-voxel quad count on the full neighborhood: 1 for the six voxels
face-adjacent to the hole, 0 elsewhere. -/
lemma around_block_length_full (pos : IVec3) :
    (get_quads_around_block fullSolidHoleNeighborhood pos).length
      = (((((if pos = (⟨15, 16, 16⟩ : IVec3) then 1 else 0)
          + (if pos = (⟨17, 16, 16⟩ : IVec3) then 1 else 0))
          + (if pos = (⟨16, 15, 16⟩ : IVec3) then 1 else 0))
          + (if pos = (⟨16, 17, 16⟩ : IVec3) then 1 else 0))
          + (if pos = (⟨16, 16, 15⟩ : IVec3) then 1 else 0))
          + (if pos = (⟨16, 16, 17⟩ : IVec3) then 1 else 0) := by
  rw [length_around_eq_countP]
  unfold allNormals
  rw [List.countP_cons, List.countP_cons, List.countP_cons, List.countP_cons,
    List.countP_cons, List.countP_cons, List.countP_nil]
  simp only [full_quad_isSome, Normal.as_unit_direction]
  rw [normal_indicator_eq pos ⟨15, 16, 16⟩ ⟨1, 0, 0⟩ (by decide) (by decide),
    normal_indicator_eq pos ⟨17, 16, 16⟩ ⟨-1, 0, 0⟩ (by decide) (by decide),
    normal_indicator_eq pos ⟨16, 15, 16⟩ ⟨0, 1, 0⟩ (by decide) (by decide),
    normal_indicator_eq pos ⟨16, 17, 16⟩ ⟨0, -1, 0⟩ (by decide) (by decide),
    normal_indicator_eq pos ⟨16, 16, 15⟩ ⟨0, 0, 1⟩ (by decide) (by decide),
    normal_indicator_eq pos ⟨16, 16, 17⟩ ⟨0, 0, -1⟩ (by decide) (by decide)]
  omega

end VoxelCore

namespace VoxelCore

lemma point_indicator3 (a b c : Int) (x y z : Nat) (hc : 0 ≤ c) :
    (if (⟨(x : Int), (y : Int), (z : Int)⟩ : IVec3) = ⟨a, b, c⟩
     then (1 : Nat) else 0)
      = if ((x : Int) = a ∧ (y : Int) = b)
        then (if z = c.toNat then 1 else 0) else 0 := by
  have hzc : z = c.toNat ↔ (z : Int) = c := by omega
  simp only [IVec3.mk.injEq]
  by_cases h1 : (x : Int) = a <;> by_cases h2 : (y : Int) = b <;>
    by_cases h3 : (z : Int) = c <;>
      simp [h1, h2, h3, hzc]

lemma point_indicator2 (a b : Int) (x y : Nat) (hb : 0 ≤ b) :
    (if ((x : Int) = a ∧ (y : Int) = b) then (1 : Nat) else 0)
      = if (x : Int) = a then (if y = b.toNat then 1 else 0) else 0 := by
  have hyb : y = b.toNat ↔ (y : Int) = b := by omega
  by_cases h1 : (x : Int) = a <;> by_cases h2 : (y : Int) = b <;>
    simp [h1, h2, hyb]

lemma point_indicator1 (a : Int) (x : Nat) (ha : 0 ≤ a) :
    (if (x : Int) = a then (1 : Nat) else 0)
      = if x = a.toNat then 1 else 0 := by
  by_cases h1 : (x : Int) = a
  · rw [if_pos h1, if_pos (by omega)]
  · rw [if_neg h1, if_neg (by omega)]

lemma triple_sum (a b c : Int)
    (ha : 0 ≤ a ∧ a < 32) (hb : 0 ≤ b ∧ b < 32) (hc : 0 ≤ c ∧ c < 32) :
    ((List.range 32).map (fun x : Nat =>
      ((List.range 32).map (fun y : Nat =>
        ((List.range 32).map (fun z : Nat =>
          if (⟨(x : Int), (y : Int), (z : Int)⟩ : IVec3) = ⟨a, b, c⟩
          then (1 : Nat) else 0)).sum)).sum)).sum = 1 := by
  have hz : ∀ x y : Nat,
      ((List.range 32).map (fun z : Nat =>
        if (⟨(x : Int), (y : Int), (z : Int)⟩ : IVec3) = ⟨a, b, c⟩
        then (1 : Nat) else 0)).sum
      = if ((x : Int) = a ∧ (y : Int) = b) then 1 else 0 := by
    intro x y
    rw [List.map_congr_left
      (fun z _ => point_indicator3 a b c x y z hc.1)]
    rw [sum_map_ite_const]
    rw [sum_range_indicator 32 c.toNat (by omega) 1]
  simp only [hz]
  have hy : ∀ x : Nat,
      ((List.range 32).map (fun y : Nat =>
        if ((x : Int) = a ∧ (y : Int) = b) then (1 : Nat) else 0)).sum
      = if (x : Int) = a then 1 else 0 := by
    intro x
    rw [List.map_congr_left (fun y _ => point_indicator2 a b x y hb.1)]
    rw [sum_map_ite_const]
    rw [sum_range_indicator 32 b.toNat (by omega) 1]
  simp only [hy]
  rw [List.map_congr_left (fun x _ => point_indicator1 a x ha.1)]
  rw [sum_range_indicator 32 a.toNat (by omega) 1]

/-- `C8` (amended) — on the neighborhood whose subject volume is all-solid
`Stone` except an empty voxel at (16,16,16) and whose 26 neighbor slots are
all populated with solid volumes, the naive mesher emits exactly 6 quads:
one per face of the hole's six solid neighbors pointing into it. -/
theorem mesh_single_hole_full_neighborhood :
    (get_quads_naive fullSolidHoleNeighborhood).length = 6 := by
  have h1 : (get_quads_naive fullSolidHoleNeighborhood).length
      = (cube_iter_32.map (fun pos =>
          (get_quads_around_block fullSolidHoleNeighborhood pos).length)).sum := by
    unfold get_quads_naive
    rw [List.flatMap_def, List.length_flatten, List.map_map]
    rfl
  rw [h1]
  unfold cube_iter_32
  simp only [sum_map_flatMap, List.map_map]
  simp only [Function.comp_def, around_block_length_full]
  simp only [sum_map_add]
  rw [triple_sum 15 16 16 (by norm_num) (by norm_num) (by norm_num),
    triple_sum 17 16 16 (by norm_num) (by norm_num) (by norm_num),
    triple_sum 16 15 16 (by norm_num) (by norm_num) (by norm_num),
    triple_sum 16 17 16 (by norm_num) (by norm_num) (by norm_num),
    triple_sum 16 16 15 (by norm_num) (by norm_num) (by norm_num),
    triple_sum 16 16 17 (by norm_num) (by norm_num) (by norm_num)]

end VoxelCore

namespace VoxelCore

/-- On the subject-only neighborhood, a face quad is emitted iff the voxel
is not the hole and the face-adjacent voxel is either out of bounds (absent
slot, read as `Air`) or the hole. -/
lemma subject_quad_isSome (pos : IVec3) (n : Normal)
    (hx : 0 ≤ pos.x ∧ pos.x < 32) (hy : 0 ≤ pos.y ∧ pos.y < 32)
    (hz : 0 ≤ pos.z ∧ pos.z < 32) :
    (get_quad_on_face subjectOnlyHoleNeighborhood pos n).isSome
      = (decide (pos ≠ (⟨16, 16, 16⟩ : IVec3)) &&
         (decide (¬((0 ≤ (pos + n.as_unit_direction).x ∧
                     (pos + n.as_unit_direction).x < 32) ∧
                    (0 ≤ (pos + n.as_unit_direction).y ∧
                     (pos + n.as_unit_direction).y < 32) ∧
                    (0 ≤ (pos + n.as_unit_direction).z ∧
                     (pos + n.as_unit_direction).z < 32))) ||
          decide (pos + n.as_unit_direction = (⟨16, 16, 16⟩ : IVec3)))) := by
  unfold get_quad_on_face
  dsimp only
  rw [subjectOnly_at_pos pos, subjectOnly_at_pos (pos + n.as_unit_direction)]
  rw [if_pos ⟨hx, hy, hz⟩]
  have hfAir : (some Block.Air).filter (fun b => b ≠ Block.Air) = none := rfl
  have hfStone : (some Block.Stone).filter (fun b => b ≠ Block.Air)
      = some Block.Stone := rfl
  by_cases h1 : pos = (⟨16, 16, 16⟩ : IVec3)
  · rw [if_pos h1, hfAir]
    rw [decide_eq_false (fun hc : pos ≠ _ => hc h1)]
    rfl
  · rw [if_neg h1, hfStone]
    dsimp only
    by_cases hin : (0 ≤ (pos + n.as_unit_direction).x ∧
        (pos + n.as_unit_direction).x < 32) ∧
        (0 ≤ (pos + n.as_unit_direction).y ∧
         (pos + n.as_unit_direction).y < 32) ∧
        (0 ≤ (pos + n.as_unit_direction).z ∧
         (pos + n.as_unit_direction).z < 32)
    · rw [if_pos hin, decide_eq_false (not_not_intro hin)]
      by_cases h2 : pos + n.as_unit_direction = (⟨16, 16, 16⟩ : IVec3)
      · rw [if_pos h2, decide_eq_true h2, decide_eq_true h1]
        rfl
      · rw [if_neg h2, decide_eq_false h2, decide_eq_true h1]
        simp [Block.is_transparent]
    · rw [if_neg hin, decide_eq_true hin, decide_eq_true h1]
      rfl

end VoxelCore

namespace VoxelCore


lemma subject_ind_px (pos : IVec3)
    (hx : 0 ≤ pos.x ∧ pos.x < 32) (hy : 0 ≤ pos.y ∧ pos.y < 32)
    (hz : 0 ≤ pos.z ∧ pos.z < 32) :
    (if (decide (pos ≠ (⟨16, 16, 16⟩ : IVec3)) &&
         (decide (¬((0 ≤ (pos + ⟨1, 0, 0⟩).x ∧ (pos + ⟨1, 0, 0⟩).x < 32) ∧
                    (0 ≤ (pos + ⟨1, 0, 0⟩).y ∧ (pos + ⟨1, 0, 0⟩).y < 32) ∧
                    (0 ≤ (pos + ⟨1, 0, 0⟩).z ∧ (pos + ⟨1, 0, 0⟩).z < 32))) ||
          decide (pos + ⟨1, 0, 0⟩ = (⟨16, 16, 16⟩ : IVec3)))) = true
     then (1 : Nat) else 0)
      = (if pos.x = 31 then 1 else 0)
        + (if pos = (⟨15, 16, 16⟩ : IVec3) then 1 else 0) := by
  cases pos with
  | mk a b c =>
    dsimp only at hx hy hz ⊢
    simp only [IVec3.add_def, ne_eq, IVec3.mk.injEq, Bool.and_eq_true,
      Bool.or_eq_true, decide_eq_true_eq] at hx hy hz ⊢
    split_ifs <;> omega

lemma subject_ind_nx (pos : IVec3)
    (hx : 0 ≤ pos.x ∧ pos.x < 32) (hy : 0 ≤ pos.y ∧ pos.y < 32)
    (hz : 0 ≤ pos.z ∧ pos.z < 32) :
    (if (decide (pos ≠ (⟨16, 16, 16⟩ : IVec3)) &&
         (decide (¬((0 ≤ (pos + ⟨-1, 0, 0⟩).x ∧ (pos + ⟨-1, 0, 0⟩).x < 32) ∧
                    (0 ≤ (pos + ⟨-1, 0, 0⟩).y ∧ (pos + ⟨-1, 0, 0⟩).y < 32) ∧
                    (0 ≤ (pos + ⟨-1, 0, 0⟩).z ∧ (pos + ⟨-1, 0, 0⟩).z < 32))) ||
          decide (pos + ⟨-1, 0, 0⟩ = (⟨16, 16, 16⟩ : IVec3)))) = true
     then (1 : Nat) else 0)
      = (if pos.x = 0 then 1 else 0)
        + (if pos = (⟨17, 16, 16⟩ : IVec3) then 1 else 0) := by
  cases pos with
  | mk a b c =>
    dsimp only at hx hy hz ⊢
    simp only [IVec3.add_def, ne_eq, IVec3.mk.injEq, Bool.and_eq_true,
      Bool.or_eq_true, decide_eq_true_eq] at hx hy hz ⊢
    split_ifs <;> omega

lemma subject_ind_py (pos : IVec3)
    (hx : 0 ≤ pos.x ∧ pos.x < 32) (hy : 0 ≤ pos.y ∧ pos.y < 32)
    (hz : 0 ≤ pos.z ∧ pos.z < 32) :
    (if (decide (pos ≠ (⟨16, 16, 16⟩ : IVec3)) &&
         (decide (¬((0 ≤ (pos + ⟨0, 1, 0⟩).x ∧ (pos + ⟨0, 1, 0⟩).x < 32) ∧
                    (0 ≤ (pos + ⟨0, 1, 0⟩).y ∧ (pos + ⟨0, 1, 0⟩).y < 32) ∧
                    (0 ≤ (pos + ⟨0, 1, 0⟩).z ∧ (pos + ⟨0, 1, 0⟩).z < 32))) ||
          decide (pos + ⟨0, 1, 0⟩ = (⟨16, 16, 16⟩ : IVec3)))) = true
     then (1 : Nat) else 0)
      = (if pos.y = 31 then 1 else 0)
        + (if pos = (⟨16, 15, 16⟩ : IVec3) then 1 else 0) := by
  cases pos with
  | mk a b c =>
    dsimp only at hx hy hz ⊢
    simp only [IVec3.add_def, ne_eq, IVec3.mk.injEq, Bool.and_eq_true,
      Bool.or_eq_true, decide_eq_true_eq] at hx hy hz ⊢
    split_ifs <;> omega

lemma subject_ind_ny (pos : IVec3)
    (hx : 0 ≤ pos.x ∧ pos.x < 32) (hy : 0 ≤ pos.y ∧ pos.y < 32)
    (hz : 0 ≤ pos.z ∧ pos.z < 32) :
    (if (decide (pos ≠ (⟨16, 16, 16⟩ : IVec3)) &&
         (decide (¬((0 ≤ (pos + ⟨0, -1, 0⟩).x ∧ (pos + ⟨0, -1, 0⟩).x < 32) ∧
                    (0 ≤ (pos + ⟨0, -1, 0⟩).y ∧ (pos + ⟨0, -1, 0⟩).y < 32) ∧
                    (0 ≤ (pos + ⟨0, -1, 0⟩).z ∧ (pos + ⟨0, -1, 0⟩).z < 32))) ||
          decide (pos + ⟨0, -1, 0⟩ = (⟨16, 16, 16⟩ : IVec3)))) = true
     then (1 : Nat) else 0)
      = (if pos.y = 0 then 1 else 0)
        + (if pos = (⟨16, 17, 16⟩ : IVec3) then 1 else 0) := by
  cases pos with
  | mk a b c =>
    dsimp only at hx hy hz ⊢
    simp only [IVec3.add_def, ne_eq, IVec3.mk.injEq, Bool.and_eq_true,
      Bool.or_eq_true, decide_eq_true_eq] at hx hy hz ⊢
    split_ifs <;> omega

lemma subject_ind_pz (pos : IVec3)
    (hx : 0 ≤ pos.x ∧ pos.x < 32) (hy : 0 ≤ pos.y ∧ pos.y < 32)
    (hz : 0 ≤ pos.z ∧ pos.z < 32) :
    (if (decide (pos ≠ (⟨16, 16, 16⟩ : IVec3)) &&
         (decide (¬((0 ≤ (pos + ⟨0, 0, 1⟩).x ∧ (pos + ⟨0, 0, 1⟩).x < 32) ∧
                    (0 ≤ (pos + ⟨0, 0, 1⟩).y ∧ (pos + ⟨0, 0, 1⟩).y < 32) ∧
                    (0 ≤ (pos + ⟨0, 0, 1⟩).z ∧ (pos + ⟨0, 0, 1⟩).z < 32))) ||
          decide (pos + ⟨0, 0, 1⟩ = (⟨16, 16, 16⟩ : IVec3)))) = true
     then (1 : Nat) else 0)
      = (if pos.z = 31 then 1 else 0)
        + (if pos = (⟨16, 16, 15⟩ : IVec3) then 1 else 0) := by
  cases pos with
  | mk a b c =>
    dsimp only at hx hy hz ⊢
    simp only [IVec3.add_def, ne_eq, IVec3.mk.injEq, Bool.and_eq_true,
      Bool.or_eq_true, decide_eq_true_eq] at hx hy hz ⊢
    split_ifs <;> omega

lemma subject_ind_nz (pos : IVec3)
    (hx : 0 ≤ pos.x ∧ pos.x < 32) (hy : 0 ≤ pos.y ∧ pos.y < 32)
    (hz : 0 ≤ pos.z ∧ pos.z < 32) :
    (if (decide (pos ≠ (⟨16, 16, 16⟩ : IVec3)) &&
         (decide (¬((0 ≤ (pos + ⟨0, 0, -1⟩).x ∧ (pos + ⟨0, 0, -1⟩).x < 32) ∧
                    (0 ≤ (pos + ⟨0, 0, -1⟩).y ∧ (pos + ⟨0, 0, -1⟩).y < 32) ∧
                    (0 ≤ (pos + ⟨0, 0, -1⟩).z ∧ (pos + ⟨0, 0, -1⟩).z < 32))) ||
          decide (pos + ⟨0, 0, -1⟩ = (⟨16, 16, 16⟩ : IVec3)))) = true
     then (1 : Nat) else 0)
      = (if pos.z = 0 then 1 else 0)
        + (if pos = (⟨16, 16, 17⟩ : IVec3) then 1 else 0) := by
  cases pos with
  | mk a b c =>
    dsimp only at hx hy hz ⊢
    simp only [IVec3.add_def, ne_eq, IVec3.mk.injEq, Bool.and_eq_true,
      Bool.or_eq_true, decide_eq_true_eq] at hx hy hz ⊢
    split_ifs <;> omega

end VoxelCore

namespace VoxelCore

/-- Per-voxel quad count on the subject-only neighborhood: one quad per
chunk-boundary face plus one per face pointing into the hole. -/
lemma around_block_length_subject (pos : IVec3)
    (hx : 0 ≤ pos.x ∧ pos.x < 32) (hy : 0 ≤ pos.y ∧ pos.y < 32)
    (hz : 0 ≤ pos.z ∧ pos.z < 32) :
    (get_quads_around_block subjectOnlyHoleNeighborhood pos).length
      = (((((((if pos.x = 31 then 1 else 0)
          + (if pos = (⟨15, 16, 16⟩ : IVec3) then 1 else 0))
          + ((if pos.x = 0 then 1 else 0)
          + (if pos = (⟨17, 16, 16⟩ : IVec3) then 1 else 0)))
          + ((if pos.y = 31 then 1 else 0)
          + (if pos = (⟨16, 15, 16⟩ : IVec3) then 1 else 0)))
          + ((if pos.y = 0 then 1 else 0)
          + (if pos = (⟨16, 17, 16⟩ : IVec3) then 1 else 0)))
          + ((if pos.z = 31 then 1 else 0)
          + (if pos = (⟨16, 16, 15⟩ : IVec3) then 1 else 0)))
          + ((if pos.z = 0 then 1 else 0)
          + (if pos = (⟨16, 16, 17⟩ : IVec3) then 1 else 0))) := by
  rw [length_around_eq_countP]
  unfold allNormals
  rw [List.countP_cons, List.countP_cons, List.countP_cons, List.countP_cons,
    List.countP_cons, List.countP_cons, List.countP_nil]
  rw [subject_quad_isSome pos Normal.PosX hx hy hz,
    subject_quad_isSome pos Normal.NegX hx hy hz,
    subject_quad_isSome pos Normal.PosY hx hy hz,
    subject_quad_isSome pos Normal.NegY hx hy hz,
    subject_quad_isSome pos Normal.PosZ hx hy hz,
    subject_quad_isSome pos Normal.NegZ hx hy hz]
  simp only [Normal.as_unit_direction]
  rw [subject_ind_px pos hx hy hz, subject_ind_nx pos hx hy hz,
    subject_ind_py pos hx hy hz, subject_ind_ny pos hx hy hz,
    subject_ind_pz pos hx hy hz, subject_ind_nz pos hx hy hz]
  ring

end VoxelCore

namespace VoxelCore

lemma point_indicator1K (a : Int) (x : Nat) (ha : 0 ≤ a) (K : Nat) :
    (if (x : Int) = a then K else 0) = if x = a.toNat then K else 0 := by
  by_cases h1 : (x : Int) = a
  · rw [if_pos h1, if_pos (by omega)]
  · rw [if_neg h1, if_neg (by omega)]

lemma mem_cube_iter (pos : IVec3) (h : pos ∈ cube_iter_32) :
    (0 ≤ pos.x ∧ pos.x < 32) ∧ (0 ≤ pos.y ∧ pos.y < 32) ∧
    (0 ≤ pos.z ∧ pos.z < 32) := by
  unfold cube_iter_32 at h
  simp only [List.mem_flatMap, List.mem_map, List.mem_range] at h
  obtain ⟨x, hx, y, hy, z, hz, rfl⟩ := h
  refine ⟨⟨?_, ?_⟩, ⟨?_, ?_⟩, ⟨?_, ?_⟩⟩ <;> dsimp only <;> omega

lemma boundary_sum_x (a : Int) (ha : 0 ≤ a ∧ a < 32) :
    ((List.range 32).map (fun x : Nat =>
      ((List.range 32).map (fun y : Nat =>
        ((List.range 32).map (fun z : Nat =>
          if (x : Int) = a then (1 : Nat) else 0)).sum)).sum)).sum
      = 1024 := by
  have h1 : ∀ x : Nat, ((List.range 32).map (fun z : Nat =>
      if (x : Int) = a then (1 : Nat) else 0)).sum
      = if (x : Int) = a then 32 else 0 := by
    intro x
    rw [sum_map_ite_const, sum_map_const, List.length_range]
  simp only [h1]
  have h2 : ∀ x : Nat, ((List.range 32).map (fun y : Nat =>
      if (x : Int) = a then (32 : Nat) else 0)).sum
      = if (x : Int) = a then 1024 else 0 := by
    intro x
    rw [sum_map_ite_const, sum_map_const, List.length_range]
  simp only [h2]
  rw [List.map_congr_left (fun x _ => point_indicator1K a x ha.1 1024)]
  rw [sum_range_indicator 32 a.toNat (by omega) 1024]

lemma boundary_sum_y (a : Int) (ha : 0 ≤ a ∧ a < 32) :
    ((List.range 32).map (fun x : Nat =>
      ((List.range 32).map (fun y : Nat =>
        ((List.range 32).map (fun z : Nat =>
          if (y : Int) = a then (1 : Nat) else 0)).sum)).sum)).sum
      = 1024 := by
  have h1 : ∀ y : Nat, ((List.range 32).map (fun z : Nat =>
      if (y : Int) = a then (1 : Nat) else 0)).sum
      = if (y : Int) = a then 32 else 0 := by
    intro y
    rw [sum_map_ite_const, sum_map_const, List.length_range]
  simp only [h1]
  have h2 : ((List.range 32).map (fun y : Nat =>
      if (y : Int) = a then (32 : Nat) else 0)).sum = 32 := by
    rw [List.map_congr_left (fun y _ => point_indicator1K a y ha.1 32)]
    rw [sum_range_indicator 32 a.toNat (by omega) 32]
  simp only [h2]
  rw [sum_map_const, List.length_range]

lemma boundary_sum_z (a : Int) (ha : 0 ≤ a ∧ a < 32) :
    ((List.range 32).map (fun x : Nat =>
      ((List.range 32).map (fun y : Nat =>
        ((List.range 32).map (fun z : Nat =>
          if (z : Int) = a then (1 : Nat) else 0)).sum)).sum)).sum
      = 1024 := by
  have h1 : ((List.range 32).map (fun z : Nat =>
      if (z : Int) = a then (1 : Nat) else 0)).sum = 1 := by
    rw [List.map_congr_left (fun z _ => point_indicator1K a z ha.1 1)]
    rw [sum_range_indicator 32 a.toNat (by omega) 1]
  simp only [h1]
  have h2 : ((List.range 32).map (fun y : Nat => (1 : Nat))).sum = 32 := by
    rw [sum_map_const, List.length_range]
  simp only [h2]
  rw [sum_map_const, List.length_range]

/-- `C8` (counterexample to the claim as stated) — on the neighborhood with
the same subject volume but all 26 neighbor slots absent, the mesher emits
6150 quads (the 6 around the hole plus 6·32² chunk-boundary faces read
against the default empty substitution), not 6. -/
theorem mesh_single_hole_subject_only_counterexample :
    (get_quads_naive subjectOnlyHoleNeighborhood).length = 6150
    ∧ (get_quads_naive subjectOnlyHoleNeighborhood).length ≠ 6 := by
  have h6150 : (get_quads_naive subjectOnlyHoleNeighborhood).length = 6150 := by
    have h1 : (get_quads_naive subjectOnlyHoleNeighborhood).length
        = (cube_iter_32.map (fun pos =>
            (get_quads_around_block subjectOnlyHoleNeighborhood pos).length)).sum := by
      unfold get_quads_naive
      rw [List.flatMap_def, List.length_flatten, List.map_map]
      rfl
    rw [h1]
    rw [List.map_congr_left (fun pos hp => around_block_length_subject pos
      (mem_cube_iter pos hp).1 (mem_cube_iter pos hp).2.1
      (mem_cube_iter pos hp).2.2)]
    unfold cube_iter_32
    simp only [sum_map_flatMap, List.map_map, Function.comp_def]
    dsimp only
    simp only [sum_map_add]
    rw [boundary_sum_x 31 (by norm_num),
      triple_sum 15 16 16 (by norm_num) (by norm_num) (by norm_num),
      boundary_sum_x 0 (by norm_num),
      triple_sum 17 16 16 (by norm_num) (by norm_num) (by norm_num),
      boundary_sum_y 31 (by norm_num),
      triple_sum 16 15 16 (by norm_num) (by norm_num) (by norm_num),
      boundary_sum_y 0 (by norm_num),
      triple_sum 16 17 16 (by norm_num) (by norm_num) (by norm_num),
      boundary_sum_z 31 (by norm_num),
      triple_sum 16 16 15 (by norm_num) (by norm_num) (by norm_num),
      boundary_sum_z 0 (by norm_num),
      triple_sum 16 16 17 (by norm_num) (by norm_num) (by norm_num)]
  exact ⟨h6150, by rw [h6150]; norm_num⟩

end VoxelCore
